import Mathlib

/-!
Shallow embedding of the analytics layer of the student-grades-viewer
repository (src/utils/statsUtils.ts), together with theorems settling the
specification claims about it.

Numbers are modelled by `ℚ` (exact arithmetic); JS `parseFloat` is a
parameter `parseFloat : String → Option ℚ`, where `none` models a NaN
result.  Pearson correlation is modelled over `ℝ` because the source uses
`Math.sqrt`.
-/

namespace StatsUtils

/-- Cells of a sheet: the TS type `string | number | null`. -/
inductive Cell where
  | num (q : ℚ)
  | str (s : String)
  | null
deriving DecidableEq

/-- The `Sheet` interface of src/types.ts: column headers plus rows of cells. -/
structure Sheet where
  columns : List String
  rows : List (List Cell)

/-- Helper: does the first list start the second one?  (Used to model JS
`String.prototype.includes`.) -/
def leadMatch {α : Type} [DecidableEq α] : List α → List α → Bool
  | [], _ => true
  | _ :: _, [] => false
  | a :: as, b :: bs => decide (a = b) && leadMatch as bs

/-- Helper: does the first list occur contiguously inside the second one? -/
def containsSeq {α : Type} [DecidableEq α] (needle : List α) : List α → Bool
  | [] => leadMatch needle []
  | b :: bs => leadMatch needle (b :: bs) || containsSeq needle bs

/-- JS `s.includes(pat)`: substring containment. -/
def strIncludes (s pat : String) : Bool :=
  containsSeq pat.toList s.toList

/-- JS `s.toLowerCase()`, modelled code point by code point. -/
def strToLower (s : String) : String :=
  ⟨s.data.map Char.toLower⟩

/-- Embedding of `isExcludedColumn` from src/utils/statsUtils.ts: column names that look
like identifier / rank / class / person-name columns. -/
def isExcludedColumn (colName : String) : Bool :=
  let lower := strToLower colName
  strIncludes lower "号" ||
  strIncludes lower "id" ||
  strIncludes lower "次" ||
  strIncludes lower "rank" ||
  strIncludes lower "班级" ||
  strIncludes lower "姓名" ||
  strIncludes lower "name"

/-- The numeric test of `getNumericColumns`: a number-typed cell is taken as
is; a string cell is taken when `parseFloat` does not yield NaN, matching
the source tests on `typeof val` and `!isNaN(parseFloat(val))`. -/
def cellToNumeric (parseFloat : String → Option ℚ) : Cell → Option ℚ
  | .num q => some q
  | .str s => parseFloat s
  | .null => none

/-- The `NumericColumn` interface of src/utils/statsUtils.ts. -/
structure NumericColumn where
  name : String
  index : ℕ
  values : List ℚ
  average : ℚ
  max : ℚ
  min : ℚ
deriving DecidableEq

/-- The numeric values collected from one column by `getNumericColumns`:
cells in row order, unparsable cells skipped (never replaced). -/
def columnValues (parseFloat : String → Option ℚ) (sheet : Sheet) (idx : ℕ) :
    List ℚ :=
  sheet.rows.filterMap (fun row => cellToNumeric parseFloat (row.getD idx .null))

/-- The per-column body of `getNumericColumns`.  The source pushes to
`values` and increments `validCount` in the same branches, so
`validCount = values.length`; `Math.max`/`Math.min` are only applied to a
nonempty `values` (guarded by `values.length > 0`), so the `getD 0`
defaults are never exercised. -/
def processColumn (parseFloat : String → Option ℚ) (sheet : Sheet)
    (idx : ℕ) (colName : String) : Option NumericColumn :=
  if isExcludedColumn colName then none
  else
    let values := columnValues parseFloat sheet idx
    if ((values.length : ℚ) > (sheet.rows.length : ℚ) * 0.5 ∧ 0 < values.length) then
      some { name := colName, index := idx, values := values,
             average := values.sum / (values.length : ℚ),
             max := values.max?.getD 0,
             min := values.min?.getD 0 }
    else none

/-- Embedding of `getNumericColumns` from src/utils/statsUtils.ts: classify every
non-excluded column whose cells are mostly numeric. -/
def getNumericColumns (parseFloat : String → Option ℚ) (sheet : Sheet) :
    List NumericColumn :=
  sheet.columns.enum.filterMap (fun p => processColumn parseFloat sheet p.1 p.2)

/-- Embedding of `getFullMark` from src/utils/statsUtils.ts: heuristic full mark from the
column name (the regex alternations are substring tests of literals). -/
def getFullMark (colName : String) : ℚ :=
  if strIncludes colName "总分" || strIncludes colName "Total" then 0
  else if strIncludes colName "语数英" then 450
  else if strIncludes colName "语文" || strIncludes colName "数学" ||
          strIncludes colName "英语" || strIncludes colName "English" ||
          strIncludes colName "Chinese" || strIncludes colName "Math" then 150
  else 100

/-- The `PassStats` interface of src/utils/statsUtils.ts. -/
structure PassStats where
  excellent : ℕ
  pass : ℕ
  fail : ℕ
  total : ℕ
deriving DecidableEq

/-- The loop body of `calculatePassStats`: bump the first matching tally. -/
def passStep (excellentThreshold passThreshold : ℚ) (s : PassStats) (v : ℚ) :
    PassStats :=
  if v ≥ excellentThreshold then { s with excellent := s.excellent + 1 }
  else if v ≥ passThreshold then { s with pass := s.pass + 1 }
  else { s with fail := s.fail + 1 }

/-- The counting loop of `calculatePassStats`, parameterised by the full
mark that the source computes as `getFullMark(colName)` on entry. -/
def passStatsCore (values : List ℚ) (fullMark : ℚ) : PassStats :=
  values.foldl (passStep (fullMark * 0.85) (fullMark * 0.6))
    { excellent := 0, pass := 0, fail := 0, total := values.length }

/-- Embedding of `calculatePassStats` from src/utils/statsUtils.ts. -/
def calculatePassStats (values : List ℚ) (colName : String) : PassStats :=
  passStatsCore values (getFullMark colName)

/-- The record returned by `getGradeAttributes` (label plus CSS classes). -/
structure GradeAttributes where
  label : String
  color : String
deriving DecidableEq

/-- Embedding of `getGradeAttributes` from src/utils/statsUtils.ts: letter grade from the
raw-score ratio `score / fullMark`; `null` when `fullMark <= 0`. -/
def getGradeAttributes (score fullMark : ℚ) : Option GradeAttributes :=
  if fullMark ≤ 0 then none
  else
    let ratio := score / fullMark
    if ratio ≥ 0.95 then some ⟨"A+", "text-emerald-700 bg-emerald-100 dark:bg-emerald-900/40 dark:text-emerald-300 border-emerald-200"⟩
    else if ratio ≥ 0.90 then some ⟨"A", "text-green-700 bg-green-100 dark:bg-green-900/40 dark:text-green-300 border-green-200"⟩
    else if ratio ≥ 0.85 then some ⟨"A-", "text-lime-700 bg-lime-100 dark:bg-lime-900/40 dark:text-lime-300 border-lime-200"⟩
    else if ratio ≥ 0.80 then some ⟨"B+", "text-blue-700 bg-blue-100 dark:bg-blue-900/40 dark:text-blue-300 border-blue-200"⟩
    else if ratio ≥ 0.75 then some ⟨"B", "text-sky-700 bg-sky-100 dark:bg-sky-900/40 dark:text-sky-300 border-sky-200"⟩
    else if ratio ≥ 0.70 then some ⟨"B-", "text-cyan-700 bg-cyan-100 dark:bg-cyan-900/40 dark:text-cyan-300 border-cyan-200"⟩
    else if ratio ≥ 0.60 then some ⟨"C", "text-yellow-700 bg-yellow-100 dark:bg-yellow-900/40 dark:text-yellow-300 border-yellow-200"⟩
    else some ⟨"D", "text-red-700 bg-red-100 dark:bg-red-900/40 dark:text-red-300 border-red-200"⟩

/-- The `RankStats` shape `{rank, total, percentile}` of the spec (§3). -/
structure RankStats where
  rank : ℕ
  total : ℕ
  percentile : ℚ
deriving DecidableEq

/-- Modelled from the spec: `getScoreRankStats` is declared and imported
from src/utils/statsUtils.ts but its body is not among the given sources;
this follows §4.2 of the spec word for word.  Empty population yields all
zeros; otherwise the rank is one more than the first 0-based position of
the descending-sorted population whose entry is at most the score, or the
population length when there is none; the percentile scales the rank
linearly, best = 1. -/
def getScoreRankStats (score : ℚ) (population : List ℚ) : RankStats :=
  if population.isEmpty then ⟨0, 0, 0⟩
  else
    let total := population.length
    let rank :=
      match population.findIdx? (fun p => decide (score ≥ p)) with
      | some i => i + 1
      | none => total
    ⟨rank, total,
     if 1 < total then ((total : ℚ) - (rank : ℚ)) / ((total : ℚ) - 1) else 1⟩

/-- The record returned by `calculateLinearRegression`. -/
structure RegressionResult where
  slope : ℚ
  intercept : ℚ
  rSquared : ℚ
deriving DecidableEq

/-- Embedding of `calculateLinearRegression` from src/utils/statsUtils.ts.  The source
loops `i = 0 .. n-1` over both arrays with `n = min(|x|, |y|)`, which is
exactly a fold over `x.zip y`. -/
def calculateLinearRegression (x y : List ℚ) : Option RegressionResult :=
  let n := min x.length y.length
  if n < 2 then none
  else
    let pairs := x.zip y
    let sumX := (pairs.map Prod.fst).sum
    let sumY := (pairs.map Prod.snd).sum
    let sumXY := (pairs.map (fun p => p.1 * p.2)).sum
    let sumX2 := (pairs.map (fun p => p.1 * p.1)).sum
    let slope := ((n : ℚ) * sumXY - sumX * sumY) / ((n : ℚ) * sumX2 - sumX * sumX)
    let intercept := (sumY - slope * sumX) / (n : ℚ)
    let yMean := sumY / (n : ℚ)
    let totalSS := (pairs.map (fun p => (p.2 - yMean) ^ 2)).sum
    let resSS := (pairs.map (fun p => (p.2 - (slope * p.1 + intercept)) ^ 2)).sum
    some ⟨slope, intercept, 1 - resSS / totalSS⟩

/-- Embedding of `downsampleData` from src/utils/statsUtils.ts; the source default for
`limit` is 500.  `Math.ceil(length / limit)` on naturals is
`(length + limit - 1) / limit`. -/
def downsampleData {α : Type} (data : List α) (limit : ℕ) : List α :=
  if data.length ≤ limit then data
  else
    let step := (data.length + limit - 1) / limit
    (data.enum.filter (fun p => decide (p.1 % step = 0))).map Prod.snd

/-- Embedding of `calculateCorrelation` from src/utils/statsUtils.ts, over `ℝ` because of
`Math.sqrt`.  The loop over `i = 0 .. min(|x|,|y|) - 1` is a fold over
`x.zip y`. -/
noncomputable def calculateCorrelation (x y : List ℝ) : ℝ :=
  let n := min x.length y.length
  if n = 0 then 0
  else
    let pairs := x.zip y
    let sumX := (pairs.map Prod.fst).sum
    let sumY := (pairs.map Prod.snd).sum
    let sumXY := (pairs.map (fun p => p.1 * p.2)).sum
    let sumX2 := (pairs.map (fun p => p.1 * p.1)).sum
    let sumY2 := (pairs.map (fun p => p.2 * p.2)).sum
    let numerator := (n : ℝ) * sumXY - sumX * sumY
    let denominator :=
      Real.sqrt (((n : ℝ) * sumX2 - sumX * sumX) * ((n : ℝ) * sumY2 - sumY * sumY))
    if denominator = 0 then 0 else numerator / denominator

/-- One histogram bucket of `generateHistogramData` (the `range` label is
the JS template string over the floored endpoints). -/
structure HistBin where
  range : String
  min : ℚ
  max : ℚ
  count : ℕ
deriving DecidableEq

/-- Increment the `count` of the bucket at a given position. -/
def incrAt : List HistBin → ℕ → List HistBin
  | [], _ => []
  | b :: bs, 0 => { b with count := b.count + 1 } :: bs
  | b :: bs, n + 1 => b :: incrAt bs n

/-- The bin index `Math.min(Math.floor((v - min) / binSize), binCount - 1)`
computed by `generateHistogramData` for a value. -/
def histBinIndex (mn binSize : ℚ) (binCount : ℕ) (v : ℚ) : ℤ :=
  min ⌊(v - mn) / binSize⌋ ((binCount : ℤ) - 1)

/-- The `values.forEach` body of `generateHistogramData`: clamp the bin
index and bump that bucket, discarding negative indices defensively. -/
def histStep (mn binSize : ℚ) (binCount : ℕ) (bs : List HistBin) (v : ℚ) :
    List HistBin :=
  let binIndex := histBinIndex mn binSize binCount v
  if 0 ≤ binIndex then incrAt bs binIndex.toNat else bs

/-- The initial buckets of `generateHistogramData`, each with its numeric
range and a zero count. -/
def histInitBins (mn binSize : ℚ) (binCount : ℕ) : List HistBin :=
  (List.range binCount).map (fun (i : ℕ) =>
    { range := toString ⌊mn + (i : ℚ) * binSize⌋ ++ "-" ++
               toString ⌊mn + ((i : ℚ) + 1) * binSize⌋,
      min := mn + (i : ℚ) * binSize,
      max := mn + ((i : ℚ) + 1) * binSize,
      count := 0 })

/-- Embedding of `generateHistogramData` from src/utils/statsUtils.ts; the source default
for `binCount` is 10.  `min`/`max` are the floored/ceiled extremes of the
(nonempty) input, so the `getD 0` defaults are never exercised. -/
def generateHistogramData (values : List ℚ) (binCount : ℕ) : List HistBin :=
  if values.isEmpty then []
  else
    let mn : ℚ := ⌊values.min?.getD 0⌋
    let mx : ℚ := ⌈values.max?.getD 0⌉
    let range := mx - mn
    let binSize := max (range / (binCount : ℚ)) 1
    values.foldl (histStep mn binSize binCount) (histInitBins mn binSize binCount)

/-- The `BoxPlotStats` interface of src/utils/statsUtils.ts. -/
structure BoxPlotStats where
  min : ℚ
  q1 : ℚ
  median : ℚ
  q3 : ℚ
  max : ℚ
  outliers : List ℚ
deriving DecidableEq

/-- JS `x || y` on an optionally-present number: yields the fallback when
`x` is `undefined` or falsy, and 0 is falsy. -/
def jsOrElse (x : Option ℚ) (fallback : ℚ) : ℚ :=
  match x with
  | some v => if v = 0 then fallback else v
  | none => fallback

/-- Embedding of `calculateBoxPlotStats` from src/utils/statsUtils.ts.  The ascending
sort of a copy, `[...values].sort((a, b) => a - b)`, is modelled by
`insertionSort`; `Math.floor(n * q)` for `q` in {0.25, 0.5, 0.75} is exact
over `ℚ`.  The `min`/`max` fields reproduce the JS `validValues[0] || q1`
and `validValues[validValues.length - 1] || q3` including falsiness of 0. -/
def calculateBoxPlotStats (values : List ℚ) : BoxPlotStats :=
  let sorted := values.insertionSort (· ≤ ·)
  let q1Pos := (⌊(sorted.length : ℚ) * 0.25⌋).toNat
  let medianPos := (⌊(sorted.length : ℚ) * 0.5⌋).toNat
  let q3Pos := (⌊(sorted.length : ℚ) * 0.75⌋).toNat
  let q1 := sorted.getD q1Pos 0
  let median := sorted.getD medianPos 0
  let q3 := sorted.getD q3Pos 0
  let iqr := q3 - q1
  let lowerBound := q1 - 1.5 * iqr
  let upperBound := q3 + 1.5 * iqr
  let validValues := sorted.filter (fun v => decide (lowerBound ≤ v ∧ v ≤ upperBound))
  let outliers := sorted.filter (fun v => decide (v < lowerBound ∨ upperBound < v))
  { min := jsOrElse validValues.head? q1,
    q1 := q1,
    median := median,
    q3 := q3,
    max := jsOrElse validValues.getLast? q3,
    outliers := outliers }

/-- Association-list lookup keyed by the first component, mirroring JS
object indexing `m[k]` (`none` = `undefined`). -/
def lookupA {α : Type} : List (String × α) → String → Option α
  | [], _ => none
  | (k', v) :: rest, k => if k' = k then some v else lookupA rest k

/-- JS `m[k] = f(m[k] ?? d)` on an object modelled as an association list:
update in place when the key exists, append otherwise. -/
def upsert {α : Type} (m : List (String × α)) (k : String) (d : α) (f : α → α) :
    List (String × α) :=
  match m with
  | [] => [(k, f d)]
  | (k', v) :: rest => if k' = k then (k', f v) :: rest else (k', v) :: upsert rest k d f

/-- The per-class groups of `getGroupedByClass`: class label ↦ column name ↦
collected values. -/
abbrev ClassGroups := List (String × List (String × List ℚ))

/-- JS `String(cell)` as used on the class cell; exact formatting is
irrelevant to grouping (only equality of labels matters). -/
def cellString : Cell → String
  | .num q => toString q
  | .str s => s
  | .null => "null"

/-- The inner loop body of `getGroupedByClass`: a cell is pushed onto its
class/column list only when it is already of number type (the source tests
`typeof val`); string cells are skipped. -/
def pushCell (cls : String) (row : List Cell) (gs : ClassGroups)
    (col : NumericColumn) : ClassGroups :=
  match row.getD col.index .null with
  | .num v => upsert gs cls [] (fun g => upsert g col.name [] (fun l => l ++ [v]))
  | _ => gs

/-- One row of the `getGroupedByClass` loop: ensure the class group exists
(the source creates `classGroups[cls] = {}` unconditionally), then push the
cell of every numeric column that is already of number type. -/
def addRowToGroups (numericCols : List NumericColumn) (classIdx : ℕ)
    (groups : ClassGroups) (row : List Cell) : ClassGroups :=
  let cls := cellString (row.getD classIdx .null)
  numericCols.foldl (pushCell cls row) (upsert groups cls [] id)

/-- The list held at a class label and column name of the groups (empty for
a missing key, like JS `undefined` spreading to an empty push list). -/
def groupList (gs : ClassGroups) (cls cn : String) : List ℚ :=
  (lookupA ((lookupA gs cls).getD []) cn).getD []

/-- The concrete `parseFloat` used by the worked example below: it parses
the two numeric strings that occur there, as JS `parseFloat` does. -/
def parseFloatEx : String → Option ℚ :=
  fun s => if s = "1" then some 1 else if s = "20" then some 20 else none

/-- A two-row sheet with a class column and a score column whose second
score is the numeric string "20". -/
def sheetEx : Sheet :=
  { columns := ["班", "score"],
    rows := [[Cell.str "1", Cell.num 10], [Cell.str "1", Cell.str "20"]] }

/-- Embedding of `getGroupedByClass` from src/utils/statsUtils.ts: find the class column
(name contains `班` or lowercases to exactly `class`), else `null`; then
fold every row into the per-class groups. -/
def getGroupedByClass (sheet : Sheet) (numericCols : List NumericColumn) :
    Option ClassGroups :=
  match sheet.columns.findIdx? (fun c => strIncludes c "班" || decide (strToLower c = "class")) with
  | none => none
  | some classIdx => some (sheet.rows.foldl (addRowToGroups numericCols classIdx) [])

/-- The cutoff table exactly as the claim states it, on the estimated
percentile `p = score / fullMark` (these are the `gradeFromPercentile`
cutoffs of the spec, not the ones in `getGradeAttributes`). -/
def claimedRawGradeLabel (p : ℚ) : String :=
  if p ≥ 0.95 then "A+"
  else if p ≥ 0.85 then "A"
  else if p ≥ 0.70 then "A-"
  else if p ≥ 0.50 then "B+"
  else if p ≥ 0.30 then "B"
  else if p ≥ 0.15 then "B-"
  else if p ≥ 0.05 then "C"
  else "D"

/-- The count of the bucket at a position (0 when out of range). -/
def countAt (bs : List HistBin) (i : ℕ) : ℕ :=
  ((bs[i]?).map HistBin.count).getD 0

-- Theorems and supporting lemmas.
-- ---------- C9 helpers ----------

lemma countP_mod_range (s : ℕ) (hs : 1 ≤ s) :
    ∀ n, (List.range n).countP (fun i => decide (i % s = 0)) = (n + s - 1) / s := by
  intro n
  induction n with
  | zero =>
      simp only [List.range_zero, List.countP_nil]
      exact (Nat.div_eq_of_lt (by omega)).symm
  | succ n ih =>
      rw [List.range_succ, List.countP_append, ih]
      simp only [List.countP_cons, List.countP_nil]
      have h1 : n + 1 + s - 1 = (n + s - 1) + 1 := by omega
      rw [h1, Nat.succ_div]
      have h2 : s ∣ n + s - 1 + 1 ↔ s ∣ n := by
        have : n + s - 1 + 1 = n + s := by omega
        rw [this, Nat.dvd_add_self_right]
      have h3 : (n % s = 0) ↔ s ∣ n := Nat.dvd_iff_mod_eq_zero.symm
      by_cases hd : s ∣ n
      · simp [h2, hd, h3]
      · simp [h2, hd, h3]

lemma downsampleData_of_le {α : Type} (data : List α) (limit : ℕ)
    (h : data.length ≤ limit) : downsampleData data limit = data := by
  unfold downsampleData
  rw [if_pos h]

lemma downsampleData_length_le {α : Type} (data : List α) (limit : ℕ)
    (h1 : 1 ≤ limit) (h2 : limit < data.length) :
    (downsampleData data limit).length ≤ limit := by
  unfold downsampleData
  rw [if_neg (by omega)]
  set n := data.length with hn
  set step := (n + limit - 1) / limit with hstep
  have hstep1 : 1 ≤ step := by
    rw [hstep]
    rw [Nat.le_div_iff_mul_le (by omega)]
    omega
  have hks : n ≤ limit * step := by
    have hd := Nat.div_add_mod (n + limit - 1) limit
    have hm := Nat.mod_lt (n + limit - 1) (show 0 < limit by omega)
    rw [hstep]
    generalize hK : limit * ((n + limit - 1) / limit) = K at *
    omega
  have hlen : ((data.enum.filter (fun p => decide (p.1 % step = 0))).map Prod.snd).length
      = (n + step - 1) / step := by
    rw [List.length_map, ← List.countP_eq_length_filter]
    have : data.enum.countP (fun p => decide (p.1 % step = 0))
        = (data.enum.map Prod.fst).countP (fun i => decide (i % step = 0)) := by
      rw [List.countP_map]
      rfl
    rw [this, List.enum_map_fst, ← hn, countP_mod_range step hstep1]
  simp only [hlen]
  rw [Nat.div_le_iff_le_mul_add_pred (by omega)]
  have hks2 : n ≤ step * limit := by rw [Nat.mul_comm] at hks; exact hks
  generalize hK : step * limit = K at *
  generalize hK2 : limit * step = K2 at *
  omega

/-- C9: `downsampleData` is idempotent for every limit `k ≥ 1`. -/
theorem downsampleData_idempotent {α : Type} (s : List α) (k : ℕ) (hk : 1 ≤ k) :
    downsampleData (downsampleData s k) k = downsampleData s k := by
  by_cases h : s.length ≤ k
  · rw [downsampleData_of_le s k h, downsampleData_of_le s k h]
  · exact downsampleData_of_le _ k (downsampleData_length_le s k hk (by omega))

theorem downsampleData_idempotent_witness :
    1 ≤ 1 ∧ downsampleData (downsampleData [0, 1, 2] 1) 1 = downsampleData ([0, 1, 2] : List ℕ) 1 :=
  ⟨by decide, downsampleData_idempotent [0, 1, 2] 1 (by decide)⟩

-- ---------- C7 ----------

/-- C7: regression returns no result iff fewer than two paired points, and
the Scenario C fit is slope 2, intercept 0, R² = 1. -/
theorem calculateLinearRegression_spec :
    (∀ x y : List ℚ, calculateLinearRegression x y = none ↔ min x.length y.length < 2) ∧
    calculateLinearRegression [1, 2, 3, 4, 5] [2, 4, 6, 8, 10] = some ⟨2, 0, 1⟩ := by
  constructor
  · intro x y
    by_cases h : min x.length y.length < 2
    · simp [calculateLinearRegression, h]
    · simp [calculateLinearRegression, h]
  · norm_num [calculateLinearRegression, List.zip_cons_cons]



-- ---------- C1 ----------

lemma passStep_foldl (eT pT : ℚ) :
    ∀ (values : List ℚ) (s : PassStats),
      values.foldl (passStep eT pT) s =
        ⟨s.excellent + values.countP (fun v => decide (eT ≤ v)),
         s.pass + values.countP (fun v => decide (pT ≤ v ∧ ¬ eT ≤ v)),
         s.fail + values.countP (fun v => decide (¬ pT ≤ v ∧ ¬ eT ≤ v)),
         s.total⟩ := by
  intro values
  induction values with
  | nil => intro s; simp
  | cons v vs ih =>
      intro s
      rw [List.foldl_cons, ih]
      simp only [List.countP_cons, passStep, ge_iff_le]
      split_ifs with h1 h2 <;> simp_all <;> first | omega | linarith

/-- C1 counterexample: on the Scenario B input the code returns
excellent = 2, pass = 3, fail = 0 — not the claimed {1, 3, 1, 5}. -/
theorem calculatePassStats_scenarioB_counterexample :
    passStatsCore [60, 70, 80, 90, 95] 100 ≠ ⟨1, 3, 1, 5⟩ := by
  norm_num [passStatsCore, passStep, List.foldl]

/-- C1 amended: the tallies are the counts against the 0.85/0.60 thresholds
(first match wins), and Scenario B yields excellent = 2 (90, 95),
pass = 3 (60, 70, 80), fail = 0, total = 5. -/
theorem calculatePassStats_amended :
    (∀ (values : List ℚ) (fullMark : ℚ),
      passStatsCore values fullMark =
        ⟨values.countP (fun v => decide (fullMark * 0.85 ≤ v)),
         values.countP (fun v => decide (fullMark * 0.6 ≤ v ∧ ¬ fullMark * 0.85 ≤ v)),
         values.countP (fun v => decide (¬ fullMark * 0.6 ≤ v ∧ ¬ fullMark * 0.85 ≤ v)),
         values.length⟩) ∧
    passStatsCore [60, 70, 80, 90, 95] 100 = ⟨2, 3, 0, 5⟩ := by
  constructor
  · intro values fullMark
    unfold passStatsCore
    rw [passStep_foldl]
    simp
  · norm_num [passStatsCore, passStep, List.foldl]



-- ---------- C3 ----------

/-- C3 counterexample: at score 85 of 100 the code grades A-, while the
cutoff table of the claim grades A. -/
theorem getGradeAttributes_claim_counterexample :
    (getGradeAttributes 85 100).map GradeAttributes.label = some "A-" ∧
    claimedRawGradeLabel (85 / 100) = "A" ∧
    (some "A-" : Option String) ≠ some "A" := by
  refine ⟨?_, ?_, by simp⟩
  · norm_num [getGradeAttributes]
  · norm_num [claimedRawGradeLabel]

set_option maxHeartbeats 1000000 in
/-- C3 amended: `getGradeAttributes` grades the ratio `score / fullMark`
with cutoffs A+ ≥ 0.95, A ≥ 0.90, A- ≥ 0.85, B+ ≥ 0.80, B ≥ 0.75,
B- ≥ 0.70, C ≥ 0.60, else D, and yields no grade iff `fullMark ≤ 0`;
each label is characterised by its half-open ratio interval. -/
theorem getGradeAttributes_amended (score fullMark : ℚ) :
    (getGradeAttributes score fullMark = none ↔ fullMark ≤ 0) ∧
    ((getGradeAttributes score fullMark).map GradeAttributes.label = some "A+" ↔
      ¬ fullMark ≤ 0 ∧ 0.95 ≤ score / fullMark) ∧
    ((getGradeAttributes score fullMark).map GradeAttributes.label = some "A" ↔
      ¬ fullMark ≤ 0 ∧ 0.90 ≤ score / fullMark ∧ score / fullMark < 0.95) ∧
    ((getGradeAttributes score fullMark).map GradeAttributes.label = some "A-" ↔
      ¬ fullMark ≤ 0 ∧ 0.85 ≤ score / fullMark ∧ score / fullMark < 0.90) ∧
    ((getGradeAttributes score fullMark).map GradeAttributes.label = some "B+" ↔
      ¬ fullMark ≤ 0 ∧ 0.80 ≤ score / fullMark ∧ score / fullMark < 0.85) ∧
    ((getGradeAttributes score fullMark).map GradeAttributes.label = some "B" ↔
      ¬ fullMark ≤ 0 ∧ 0.75 ≤ score / fullMark ∧ score / fullMark < 0.80) ∧
    ((getGradeAttributes score fullMark).map GradeAttributes.label = some "B-" ↔
      ¬ fullMark ≤ 0 ∧ 0.70 ≤ score / fullMark ∧ score / fullMark < 0.75) ∧
    ((getGradeAttributes score fullMark).map GradeAttributes.label = some "C" ↔
      ¬ fullMark ≤ 0 ∧ 0.60 ≤ score / fullMark ∧ score / fullMark < 0.70) ∧
    ((getGradeAttributes score fullMark).map GradeAttributes.label = some "D" ↔
      ¬ fullMark ≤ 0 ∧ score / fullMark < 0.60) := by
  by_cases h0 : fullMark ≤ 0
  · simp [getGradeAttributes, h0]
  · simp only [getGradeAttributes, if_neg h0]
    split_ifs with h1 h2 h3 h4 h5 h6 h7 <;>
      refine ⟨?_, ?_, ?_, ?_, ?_, ?_, ?_, ?_, ?_⟩ <;>
      simp <;>
      first
        | (intros; linarith)
        | (refine ⟨by linarith, ?_, ?_⟩ <;> linarith)
        | (refine ⟨by linarith, ?_⟩ <;> linarith)
        | linarith
        | exact h0



-- ---------- C2 ----------

lemma findIdx?_eq_some_of_first {α : Type} (d : α) (p : α → Bool) :
    ∀ (l : List α) (i : ℕ), i < l.length → p (l.getD i d) = true →
      (∀ j, j < i → p (l.getD j d) = false) → l.findIdx? p = some i := by
  intro l
  induction l with
  | nil => intro i h; simp at h
  | cons a t ih =>
      intro i hi hp hprev
      cases i with
      | zero =>
          simp only [List.getD_cons_zero] at hp
          rw [List.findIdx?_cons, hp]
          simp
      | succ i =>
          have ha : p a = false := by
            have := hprev 0 (by omega)
            simpa using this
          rw [List.findIdx?_cons, ha]
          simp only [Bool.false_eq_true, if_false, List.findIdx?_succ]
          have : t.findIdx? p = some i := by
            apply ih
            · simpa using hi
            · simpa using hp
            · intro j hj
              have := hprev (j + 1) (by omega)
              simpa using this
          rw [this]
          rfl

lemma findIdx?_eq_none_of_all {α : Type} (d : α) (p : α → Bool) :
    ∀ (l : List α), (∀ j, j < l.length → p (l.getD j d) = false) →
      l.findIdx? p = none := by
  intro l
  induction l with
  | nil => intro; rfl
  | cons a t ih =>
      intro hall
      have ha : p a = false := by simpa using hall 0 (by simp)
      rw [List.findIdx?_cons, ha]
      simp only [Bool.false_eq_true, if_false, List.findIdx?_succ]
      rw [ih (fun j hj => by
        simpa using hall (j + 1) (by simp only [List.length_cons]; omega))]
      rfl

/-- C2: rank/percentile behaviour of `getScoreRankStats` (modelled from the
spec, §4.2): all-zero on an empty population; otherwise the total is the
population size, the rank is one more than the first position whose entry
is at most the score (ties get the best rank), the population length when
every entry exceeds the score, and the percentile is
`(total - rank)/(total - 1)` for `total > 1`, else 1; Scenario A gives
rank 2, total 4, percentile 2/3. -/
theorem getScoreRankStats_spec (score : ℚ) (population : List ℚ)
    (hsorted : population.Sorted (· ≥ ·)) :
    (population = [] → getScoreRankStats score population = ⟨0, 0, 0⟩) ∧
    (getScoreRankStats score population).total = population.length ∧
    (∀ i, i < population.length → score ≥ population.getD i 0 →
      (∀ j, j < i → ¬ score ≥ population.getD j 0) →
      (getScoreRankStats score population).rank = i + 1) ∧
    ((∀ i, i < population.length → ¬ score ≥ population.getD i 0) →
      (getScoreRankStats score population).rank = population.length) ∧
    (population ≠ [] → (getScoreRankStats score population).percentile =
      (if 1 < population.length then
        ((population.length : ℚ) - ((getScoreRankStats score population).rank : ℚ)) /
          ((population.length : ℚ) - 1)
       else 1)) ∧
    getScoreRankStats 90 [100, 90, 90, 70] = ⟨2, 4, 2 / 3⟩ := by
  refine ⟨?_, ?_, ?_, ?_, ?_, ?_⟩
  · intro h
    rw [h]
    rfl
  · by_cases h : population = []
    · rw [h]; rfl
    · unfold getScoreRankStats
      rw [if_neg (by simpa using h)]
  · intro i hi hp hprev
    have hfind : population.findIdx? (fun q => decide (score ≥ q)) = some i := by
      apply findIdx?_eq_some_of_first 0
      · exact hi
      · simpa using hp
      · intro j hj
        simpa using hprev j hj
    have hne : population ≠ [] := by
      intro h; rw [h] at hi; simp at hi
    unfold getScoreRankStats
    rw [if_neg (by simpa using hne)]
    simp [hfind]
  · intro hall
    have hfind : population.findIdx? (fun q => decide (score ≥ q)) = none := by
      apply findIdx?_eq_none_of_all 0
      intro j hj
      simpa using hall j hj
    by_cases h : population = []
    · rw [h]; rfl
    · unfold getScoreRankStats
      rw [if_neg (by simpa using h)]
      simp [hfind]
  · intro hne
    unfold getScoreRankStats
    rw [if_neg (by simpa using hne)]
  · norm_num [getScoreRankStats, List.findIdx?_cons, List.findIdx?_succ]

theorem getScoreRankStats_spec_witness :
    ([100, 90, 90, 70] : List ℚ).Sorted (· ≥ ·) ∧
    getScoreRankStats 90 [100, 90, 90, 70] = ⟨2, 4, 2 / 3⟩ :=
  ⟨by norm_num [List.Sorted, List.pairwise_cons],
   (getScoreRankStats_spec 90 [100, 90, 90, 70]
     (by norm_num [List.Sorted, List.pairwise_cons])).2.2.2.2.2⟩



-- ---------- C4 ----------

/-- C4: the code contradicts the claim (and its own fallback comment) on
`[0, 1, 2, 3]`: every value is in bounds (no outliers) and the least
in-bound value is 0, yet `min` comes out as `q1 = 1`, because the JS
fallback `validValues[0] || q1` also triggers on the falsy value 0. -/
theorem calculateBoxPlotStats_zero_falsy :
    (calculateBoxPlotStats [0, 1, 2, 3]).outliers = [] ∧
    (calculateBoxPlotStats [0, 1, 2, 3]).q1 = 1 ∧
    (calculateBoxPlotStats [0, 1, 2, 3]).min = 1 ∧
    (0 : ℚ) ∈ ([0, 1, 2, 3] : List ℚ) ∧
    (∀ v ∈ ([0, 1, 2, 3] : List ℚ), (0 : ℚ) ≤ v) := by
  refine ⟨?_, ?_, ?_, by norm_num, by norm_num⟩ <;>
    norm_num [calculateBoxPlotStats, List.insertionSort, List.orderedInsert,
      jsOrElse, List.getD, List.filter_cons, decide_eq_true_eq,
      (show ((3 : ℤ).toNat = 3) from rfl), (show ((2 : ℤ).toNat = 2) from rfl),
      (show ((1 : ℤ).toNat = 1) from rfl), List.getElem_cons_succ,
      List.getElem_cons_zero]



-- ---------- C8 ----------

lemma zip_self {α : Type} (x : List α) : x.zip x = x.map (fun a => (a, a)) := by
  induction x with
  | nil => rfl
  | cons a t ih => simp [List.zip_cons_cons, ih]

lemma sum_sq_nonneg (l : List ℝ) : 0 ≤ (l.map (fun a => a * a)).sum := by
  apply List.sum_nonneg
  intro x hx
  obtain ⟨a, _, rfl⟩ := List.mem_map.mp hx
  exact mul_self_nonneg a

lemma sq_sum_le_len_mul_sum_sq (l : List ℝ) :
    l.sum * l.sum ≤ (l.length : ℝ) * (l.map (fun a => a * a)).sum := by
  induction l with
  | nil => simp
  | cons a t ih =>
      have hQ := sum_sq_nonneg t
      rcases eq_or_ne t [] with rfl | hne
      · simp only [List.sum_cons, List.map_cons, List.length_cons, List.sum_nil,
          List.map_nil, List.length_nil]
        push_cast
        nlinarith [sq_nonneg a]
      · have hn1 : (1 : ℝ) ≤ (t.length : ℝ) := by
          have h1 : 1 ≤ t.length := List.length_pos.mpr hne
          exact_mod_cast h1
        simp only [List.sum_cons, List.map_cons, List.length_cons]
        push_cast
        nlinarith [ih, hQ, sq_nonneg ((t.length : ℝ) * a - t.sum),
          mul_nonneg (by positivity : (0 : ℝ) ≤ (t.length : ℝ)) (sub_nonneg.mpr ih),
          sub_nonneg.mpr ih, hn1]

/-- C8: Pearson self-correlation is 1 for any nonempty series whose
sum-formula variance term `n * Σx² - (Σx)²` is nonzero. -/
theorem calculateCorrelation_self (x : List ℝ) (hx : x ≠ [])
    (hvar : (x.length : ℝ) * (x.map (fun a => a * a)).sum - x.sum * x.sum ≠ 0) :
    calculateCorrelation x x = 1 := by
  unfold calculateCorrelation
  rw [min_self, if_neg (by simpa using hx)]
  rw [zip_self]
  simp only [List.map_map]
  have hfst : (Prod.fst ∘ fun a : ℝ => (a, a)) = id := rfl
  have hsnd : (Prod.snd ∘ fun a : ℝ => (a, a)) = id := rfl
  have hmul : ((fun p : ℝ × ℝ => p.1 * p.2) ∘ fun a : ℝ => (a, a)) =
      (fun a : ℝ => a * a) := rfl
  have hmul1 : ((fun p : ℝ × ℝ => p.1 * p.1) ∘ fun a : ℝ => (a, a)) =
      (fun a : ℝ => a * a) := rfl
  have hmul2 : ((fun p : ℝ × ℝ => p.2 * p.2) ∘ fun a : ℝ => (a, a)) =
      (fun a : ℝ => a * a) := rfl
  rw [hfst, hsnd, hmul, hmul1, hmul2, List.map_id]
  set S := x.sum
  set Q := (x.map (fun a => a * a)).sum
  set n := x.length
  have hd : (0 : ℝ) ≤ (n : ℝ) * Q - S * S := by
    have := sq_sum_le_len_mul_sum_sq x
    simpa using by linarith [this]
  have hsqrt : Real.sqrt (((n : ℝ) * Q - S * S) * ((n : ℝ) * Q - S * S)) =
      (n : ℝ) * Q - S * S := Real.sqrt_mul_self hd
  rw [hsqrt, if_neg hvar]
  exact div_self hvar

theorem calculateCorrelation_self_witness :
    (([1, 2] : List ℝ) ≠ [] ∧
      ((([1, 2] : List ℝ).length : ℝ) *
        (([1, 2] : List ℝ).map (fun a => a * a)).sum -
        ([1, 2] : List ℝ).sum * ([1, 2] : List ℝ).sum ≠ 0)) ∧
    calculateCorrelation [1, 2] [1, 2] = 1 :=
  ⟨⟨by simp, by norm_num⟩,
   calculateCorrelation_self [1, 2] (by simp) (by norm_num)⟩



-- ---------- C6 ----------

lemma incrAt_length : ∀ (bs : List HistBin) (i : ℕ), (incrAt bs i).length = bs.length
  | [], _ => rfl
  | _ :: _, 0 => rfl
  | _ :: bs, n + 1 => by simp [incrAt, incrAt_length bs n]

lemma sum_count_incrAt : ∀ (bs : List HistBin) (i : ℕ), i < bs.length →
    ((incrAt bs i).map HistBin.count).sum = (bs.map HistBin.count).sum + 1
  | [], i, h => absurd h (by simp)
  | b :: bs, 0, _ => by simp [incrAt]; omega
  | b :: bs, n + 1, h => by
      simp only [incrAt, List.map_cons, List.sum_cons,
        sum_count_incrAt bs n (by simpa using h)]
      omega

lemma countAt_incrAt : ∀ (bs : List HistBin) (j i : ℕ), j < bs.length →
    countAt (incrAt bs j) i = countAt bs i + if i = j then 1 else 0
  | [], j, _, h => absurd h (by simp)
  | b :: bs, 0, 0, _ => by simp [incrAt, countAt]
  | b :: bs, 0, i + 1, _ => by simp [incrAt, countAt]
  | b :: bs, j + 1, 0, _ => by simp [incrAt, countAt]
  | b :: bs, j + 1, i + 1, h => by
      have ih := countAt_incrAt bs j i (by simpa using h)
      simp only [incrAt, countAt, List.getElem?_cons_succ] at ih ⊢
      simpa using ih

lemma histStep_of_nonneg (mn bz : ℚ) (bc : ℕ) (bs : List HistBin) (v : ℚ)
    (h : 0 ≤ histBinIndex mn bz bc v) :
    histStep mn bz bc bs v = incrAt bs (histBinIndex mn bz bc v).toNat := by
  simp only [histStep]
  rw [if_pos h]

lemma histStep_length (mn bz : ℚ) (bc : ℕ) (bs : List HistBin) (v : ℚ) :
    (histStep mn bz bc bs v).length = bs.length := by
  simp only [histStep]
  split_ifs <;> simp [incrAt_length]

lemma foldl_histStep_length (mn bz : ℚ) (bc : ℕ) :
    ∀ (values : List ℚ) (bs : List HistBin),
      (values.foldl (histStep mn bz bc) bs).length = bs.length := by
  intro values
  induction values with
  | nil => intro bs; rfl
  | cons v vs ih =>
      intro bs
      rw [List.foldl_cons, ih, histStep_length]

lemma foldl_histStep_sum (mn bz : ℚ) (bc : ℕ) :
    ∀ (values : List ℚ) (bs : List HistBin),
      (∀ v ∈ values, 0 ≤ histBinIndex mn bz bc v ∧
        (histBinIndex mn bz bc v).toNat < bs.length) →
      ((values.foldl (histStep mn bz bc) bs).map HistBin.count).sum =
        (bs.map HistBin.count).sum + values.length := by
  intro values
  induction values with
  | nil => intro bs _; simp
  | cons v vs ih =>
      intro bs hv
      obtain ⟨h0, hlt⟩ := hv v (List.mem_cons_self v vs)
      rw [List.foldl_cons]
      rw [histStep_of_nonneg mn bz bc bs v h0, ih _ (fun w hw => by
        rw [incrAt_length]
        exact hv w (List.mem_cons_of_mem v hw))]
      rw [sum_count_incrAt bs _ hlt]
      simp only [List.length_cons]
      omega

lemma foldl_histStep_countAt (mn bz : ℚ) (bc : ℕ) (i : ℕ) :
    ∀ (values : List ℚ) (bs : List HistBin),
      (∀ v ∈ values, 0 ≤ histBinIndex mn bz bc v ∧
        (histBinIndex mn bz bc v).toNat < bs.length) →
      countAt (values.foldl (histStep mn bz bc) bs) i =
        countAt bs i +
          values.countP (fun v => decide ((histBinIndex mn bz bc v).toNat = i)) := by
  intro values
  induction values with
  | nil => intro bs _; simp
  | cons v vs ih =>
      intro bs hv
      obtain ⟨h0, hlt⟩ := hv v (List.mem_cons_self v vs)
      rw [List.foldl_cons]
      rw [histStep_of_nonneg mn bz bc bs v h0, ih _ (fun w hw => by
        rw [incrAt_length]
        exact hv w (List.mem_cons_of_mem v hw))]
      rw [countAt_incrAt bs _ i hlt]
      simp only [List.countP_cons, decide_eq_true_eq]
      by_cases hij : (histBinIndex mn bz bc v).toNat = i
      · simp [hij]
        try omega
      · simp [hij, Ne.symm hij]
        try omega

lemma min?_le_of_mem : ∀ (l : List ℚ) (m v : ℚ), l.min? = some m → v ∈ l → m ≤ v := by
  intro l
  induction l with
  | nil => intro m v hm _; simp at hm
  | cons a t ih =>
      intro m v hm hv
      rw [List.min?_cons] at hm
      rcases ht : t.min? with _ | mt
      · rw [ht] at hm
        simp only [Option.elim] at hm
        have hma := Option.some.inj hm
        rw [List.min?_eq_none_iff] at ht
        subst ht
        have hva := List.mem_singleton.mp hv
        rw [hva]
        exact le_of_eq hma.symm
      · rw [ht] at hm
        simp only [Option.elim] at hm
        have hmm := Option.some.inj hm
        rcases List.mem_cons.mp hv with hva | hv'
        · rw [hva]
          exact le_trans (le_of_eq hmm.symm) (min_le_left a mt)
        · exact le_trans (le_trans (le_of_eq hmm.symm) (min_le_right a mt))
            (ih mt v ht hv')



lemma histInitBins_length (mn bz : ℚ) (bc : ℕ) :
    (histInitBins mn bz bc).length = bc := by
  unfold histInitBins
  rw [List.length_map, List.length_range]

lemma histInitBins_sum (mn bz : ℚ) (bc : ℕ) :
    ((histInitBins mn bz bc).map HistBin.count).sum = 0 := by
  apply List.sum_eq_zero
  intro x hx
  simp only [histInitBins, List.map_map, List.mem_map] at hx
  obtain ⟨i, _, rfl⟩ := hx
  rfl

lemma histInitBins_countAt (mn bz : ℚ) (bc i : ℕ) :
    countAt (histInitBins mn bz bc) i = 0 := by
  unfold countAt histInitBins
  rw [List.getElem?_map]
  cases h : (List.range bc)[i]? with
  | none => rfl
  | some j => rfl

lemma histBinIndex_bounds (values : List ℚ) (binCount : ℕ)
    (hne : values ≠ []) (hbc : 1 ≤ binCount) (v : ℚ) (hv : v ∈ values) :
    0 ≤ histBinIndex (⌊values.min?.getD 0⌋ : ℚ)
        (max (((⌈values.max?.getD 0⌉ : ℚ) - (⌊values.min?.getD 0⌋ : ℚ)) / (binCount : ℚ)) 1)
        binCount v ∧
    (histBinIndex (⌊values.min?.getD 0⌋ : ℚ)
        (max (((⌈values.max?.getD 0⌉ : ℚ) - (⌊values.min?.getD 0⌋ : ℚ)) / (binCount : ℚ)) 1)
        binCount v).toNat < binCount := by
  obtain ⟨m, hm⟩ : ∃ m, values.min? = some m := by
    cases values with
    | nil => exact absurd rfl hne
    | cons a t => exact ⟨_, List.min?_cons⟩
  have hmv : m ≤ v := min?_le_of_mem values m v hm hv
  rw [hm]
  simp only [Option.getD_some]
  set mn : ℚ := (⌊m⌋ : ℚ) with hmn
  set bz : ℚ := max (((⌈values.max?.getD 0⌉ : ℚ) - mn) / (binCount : ℚ)) 1 with hbz
  have hbz1 : (1 : ℚ) ≤ bz := le_max_right _ 1
  have hbz0 : (0 : ℚ) < bz := lt_of_lt_of_le one_pos hbz1
  have hvm : (0 : ℚ) ≤ v - mn := by
    have : mn ≤ m := Int.floor_le m
    linarith
  have hfl : (0 : ℤ) ≤ ⌊(v - mn) / bz⌋ :=
    Int.floor_nonneg.mpr (div_nonneg hvm (le_of_lt hbz0))
  have hbc' : (1 : ℤ) ≤ (binCount : ℤ) := by exact_mod_cast hbc
  constructor
  · exact le_min hfl (by omega)
  · have h3 : histBinIndex mn bz binCount v ≤ (binCount : ℤ) - 1 :=
      min_le_right _ _
    have h4 : 0 ≤ histBinIndex mn bz binCount v := le_min hfl (by omega)
    omega

/-- C6: for a nonempty input and a positive bucket count, the histogram has
exactly `binCount` buckets, their counts sum to the input length, and the
count of bucket `i` is the number of values whose clamped bin index
`min(floor((v - min)/binSize), binCount - 1)` is `i`, where
`min = floor(min(values))` and `binSize = max((max - min)/binCount, 1)`. -/
theorem generateHistogramData_spec (values : List ℚ) (binCount : ℕ)
    (hne : values ≠ []) (hbc : 1 ≤ binCount) :
    (generateHistogramData values binCount).length = binCount ∧
    ((generateHistogramData values binCount).map HistBin.count).sum = values.length ∧
    (∀ i, countAt (generateHistogramData values binCount) i =
      values.countP (fun v => decide ((histBinIndex (⌊values.min?.getD 0⌋ : ℚ)
        (max (((⌈values.max?.getD 0⌉ : ℚ) - (⌊values.min?.getD 0⌋ : ℚ)) / (binCount : ℚ)) 1)
        binCount v).toNat = i))) := by
  set mn : ℚ := (⌊values.min?.getD 0⌋ : ℚ) with hmn
  set bz : ℚ := max (((⌈values.max?.getD 0⌉ : ℚ) - mn) / (binCount : ℚ)) 1 with hbz
  have hbounds : ∀ v ∈ values, 0 ≤ histBinIndex mn bz binCount v ∧
      (histBinIndex mn bz binCount v).toNat < binCount := by
    intro v hv
    exact histBinIndex_bounds values binCount hne hbc v hv
  have hgen : generateHistogramData values binCount =
      values.foldl (histStep mn bz binCount) (histInitBins mn bz binCount) := by
    unfold generateHistogramData
    rw [if_neg (by simpa using hne)]
  have hbounds' : ∀ v ∈ values, 0 ≤ histBinIndex mn bz binCount v ∧
      (histBinIndex mn bz binCount v).toNat < (histInitBins mn bz binCount).length := by
    intro v hv
    rw [histInitBins_length]
    exact hbounds v hv
  refine ⟨?_, ?_, ?_⟩
  · rw [hgen, foldl_histStep_length, histInitBins_length]
  · rw [hgen, foldl_histStep_sum mn bz binCount values _ hbounds', histInitBins_sum]
    omega
  · intro i
    rw [hgen, foldl_histStep_countAt mn bz binCount i values _ hbounds',
      histInitBins_countAt]
    omega

theorem generateHistogramData_spec_witness :
    (([0, 3] : List ℚ) ≠ [] ∧ 1 ≤ 2) ∧
    ((generateHistogramData [0, 3] 2).map HistBin.count).sum =
      ([0, 3] : List ℚ).length :=
  ⟨⟨by simp, by norm_num⟩,
   (generateHistogramData_spec [0, 3] 2 (by simp) (by norm_num)).2.1⟩



-- ---------- C5 ----------

lemma max?_ge_of_mem : ∀ (l : List ℚ) (m v : ℚ), l.max? = some m → v ∈ l → v ≤ m := by
  intro l
  induction l with
  | nil => intro m v hm _; simp at hm
  | cons a t ih =>
      intro m v hm hv
      rw [List.max?_cons] at hm
      rcases ht : t.max? with _ | mt
      · rw [ht] at hm
        simp only [Option.elim] at hm
        have hma := Option.some.inj hm
        rw [List.max?_eq_none_iff] at ht
        subst ht
        have hva := List.mem_singleton.mp hv
        rw [hva]
        exact le_of_eq hma
      · rw [ht] at hm
        simp only [Option.elim] at hm
        have hmm := Option.some.inj hm
        rcases List.mem_cons.mp hv with hva | hv'
        · rw [hva]
          exact le_trans (le_max_left a mt) (le_of_eq hmm)
        · exact le_trans (ih mt v ht hv')
            (le_trans (le_max_right a mt) (le_of_eq hmm))

lemma processColumn_eq_some (parseFloat : String → Option ℚ) (sheet : Sheet)
    (idx : ℕ) (colName : String) (nc : NumericColumn)
    (h : processColumn parseFloat sheet idx colName = some nc) :
    isExcludedColumn colName = false ∧
    ((columnValues parseFloat sheet idx).length : ℚ) > (sheet.rows.length : ℚ) * 0.5 ∧
    0 < (columnValues parseFloat sheet idx).length ∧
    nc = { name := colName, index := idx,
           values := columnValues parseFloat sheet idx,
           average := (columnValues parseFloat sheet idx).sum /
             ((columnValues parseFloat sheet idx).length : ℚ),
           max := (columnValues parseFloat sheet idx).max?.getD 0,
           min := (columnValues parseFloat sheet idx).min?.getD 0 } := by
  simp only [processColumn] at h
  by_cases h1 : isExcludedColumn colName = true
  · rw [if_pos h1] at h
    exact absurd h (by simp)
  · rw [if_neg h1] at h
    by_cases h2 : (((columnValues parseFloat sheet idx).length : ℚ) >
        (sheet.rows.length : ℚ) * 0.5 ∧ 0 < (columnValues parseFloat sheet idx).length)
    · rw [if_pos h2] at h
      exact ⟨by simpa using h1, h2.1, h2.2, (Option.some.inj h).symm⟩
    · rw [if_neg h2] at h
      exact absurd h (by simp)

lemma processColumn_eq_some_of (parseFloat : String → Option ℚ) (sheet : Sheet)
    (idx : ℕ) (colName : String)
    (h1 : isExcludedColumn colName = false)
    (h2 : ((columnValues parseFloat sheet idx).length : ℚ) > (sheet.rows.length : ℚ) * 0.5)
    (h3 : 0 < (columnValues parseFloat sheet idx).length) :
    processColumn parseFloat sheet idx colName =
      some { name := colName, index := idx,
             values := columnValues parseFloat sheet idx,
             average := (columnValues parseFloat sheet idx).sum /
               ((columnValues parseFloat sheet idx).length : ℚ),
             max := (columnValues parseFloat sheet idx).max?.getD 0,
             min := (columnValues parseFloat sheet idx).min?.getD 0 } := by
  simp only [processColumn]
  rw [if_neg (by simp [h1]), if_pos ⟨h2, h3⟩]

/-- C5: a cell is numeric iff it is a number or a string `parseFloat`
accepts; a column enters the classification iff strictly more than half of
the rows yield a numeric value and at least one value exists; the produced
`NumericColumn` keeps the parsed values in row order (unparsable cells
skipped) with `average` the arithmetic mean and `max`/`min` the extremes. -/
theorem getNumericColumns_spec (parseFloat : String → Option ℚ) (sheet : Sheet)
    (idx : ℕ) (colName : String)
    (hcol : sheet.columns[idx]? = some colName)
    (hexc : isExcludedColumn colName = false) :
    ((∃ nc ∈ getNumericColumns parseFloat sheet, nc.index = idx) ↔
      (((columnValues parseFloat sheet idx).length : ℚ) >
          (sheet.rows.length : ℚ) * 0.5 ∧
        columnValues parseFloat sheet idx ≠ [])) ∧
    (∀ nc ∈ getNumericColumns parseFloat sheet, nc.index = idx →
      nc.name = colName ∧
      nc.values = columnValues parseFloat sheet idx ∧
      nc.average = nc.values.sum / (nc.values.length : ℚ) ∧
      (nc.max ∈ nc.values ∧ ∀ v ∈ nc.values, v ≤ nc.max) ∧
      (nc.min ∈ nc.values ∧ ∀ v ∈ nc.values, nc.min ≤ v)) ∧
    (∀ c : Cell, (cellToNumeric parseFloat c).isSome ↔
      ((∃ q, c = Cell.num q) ∨ (∃ s v, c = Cell.str s ∧ parseFloat s = some v))) := by
  refine ⟨⟨?_, ?_⟩, ?_, ?_⟩
  · rintro ⟨nc, hnc, hidx⟩
    rw [getNumericColumns] at hnc
    obtain ⟨p, hp, hproc⟩ := List.mem_filterMap.mp hnc
    obtain ⟨-, h2, h3, hncEq⟩ := processColumn_eq_some parseFloat sheet p.1 p.2 nc hproc
    have hpidx : p.1 = idx := by
      rw [hncEq] at hidx
      simpa using hidx
    rw [hpidx] at h2 h3
    exact ⟨h2, List.length_pos.mp h3⟩
  · rintro ⟨h2, h3⟩
    refine ⟨{ name := colName, index := idx,
              values := columnValues parseFloat sheet idx,
              average := (columnValues parseFloat sheet idx).sum /
                ((columnValues parseFloat sheet idx).length : ℚ),
              max := (columnValues parseFloat sheet idx).max?.getD 0,
              min := (columnValues parseFloat sheet idx).min?.getD 0 }, ?_, rfl⟩
    rw [getNumericColumns]
    apply List.mem_filterMap.mpr
    exact ⟨(idx, colName), List.mk_mem_enum_iff_getElem?.mpr hcol,
      processColumn_eq_some_of parseFloat sheet idx colName hexc h2
        (List.length_pos.mpr h3)⟩
  · intro nc hnc hidx
    rw [getNumericColumns] at hnc
    obtain ⟨p, hp, hproc⟩ := List.mem_filterMap.mp hnc
    obtain ⟨pi, pn⟩ := p
    obtain ⟨-, h2, h3, hncEq⟩ := processColumn_eq_some parseFloat sheet pi pn nc hproc
    have hpidx : pi = idx := by
      rw [hncEq] at hidx
      simpa using hidx
    have hmem : sheet.columns[pi]? = some pn := List.mk_mem_enum_iff_getElem?.mp hp
    have hpcol : pn = colName := by
      rw [hpidx] at hmem
      rw [hmem] at hcol
      exact Option.some.inj hcol
    obtain ⟨mx, hmx⟩ : ∃ m, (columnValues parseFloat sheet pi).max? = some m := by
      cases hcv : columnValues parseFloat sheet pi with
      | nil => rw [hcv] at h3; simp at h3
      | cons a t => exact ⟨_, List.max?_cons⟩
    obtain ⟨mnv, hmnv⟩ : ∃ m, (columnValues parseFloat sheet pi).min? = some m := by
      cases hcv : columnValues parseFloat sheet pi with
      | nil => rw [hcv] at h3; simp at h3
      | cons a t => exact ⟨_, List.min?_cons⟩
    refine ⟨by rw [hncEq, hpcol], by rw [hncEq, hpidx], by rw [hncEq], ?_, ?_⟩
    · rw [hncEq]
      simp only [hmx, Option.getD_some]
      constructor
      · exact List.max?_mem (fun a b => max_choice a b) hmx
      · intro v hv
        exact max?_ge_of_mem _ mx v hmx hv
    · rw [hncEq]
      simp only [hmnv, Option.getD_some]
      constructor
      · exact List.min?_mem (fun a b => min_choice a b) hmnv
      · intro v hv
        exact min?_le_of_mem _ mnv v hmnv hv
  · intro c
    cases c with
    | num q => simp [cellToNumeric]
    | str s =>
        simp only [cellToNumeric, Option.isSome_iff_exists]
        constructor
        · rintro ⟨v, hv⟩
          exact Or.inr ⟨s, v, rfl, hv⟩
        · rintro (⟨q, hq⟩ | ⟨s', v, hs, hv⟩)
          · exact absurd hq (by simp)
          · obtain rfl : s' = s := by
              injection hs.symm
            exact ⟨v, hv⟩
    | null => simp [cellToNumeric]



-- ---------- C10 ----------

lemma lookupA_upsert {α : Type} (m : List (String × α)) (k k' : String) (d : α)
    (f : α → α) :
    lookupA (upsert m k d f) k' =
      if k = k' then some (f ((lookupA m k).getD d)) else lookupA m k' := by
  induction m with
  | nil =>
      by_cases h : k = k'
      · subst h
        simp [upsert, lookupA]
      · simp [upsert, lookupA, h]
  | cons a rest ih =>
      obtain ⟨ak, av⟩ := a
      by_cases h1 : ak = k
      · subst h1
        by_cases h2 : ak = k'
        · subst h2
          simp [upsert, lookupA]
        · simp [upsert, lookupA, h2]
      · by_cases h2 : ak = k'
        · subst h2
          have h1' : ¬ k = ak := fun h => h1 h.symm
          simp [upsert, lookupA, h1, h1']
        · simp [upsert, lookupA, h1, h2, ih]

lemma groupList_upsert_id (gs : ClassGroups) (cls' cls cn : String) :
    groupList (upsert gs cls' [] id) cls cn = groupList gs cls cn := by
  unfold groupList
  rw [lookupA_upsert]
  by_cases h : cls' = cls
  · subst h
    simp
  · rw [if_neg h]

lemma groupList_push (gs : ClassGroups) (cls' cn' cls cn : String) (v : ℚ) :
    groupList (upsert gs cls' [] (fun g => upsert g cn' [] (fun l => l ++ [v])))
        cls cn =
      groupList gs cls cn ++ (if cls' = cls ∧ cn' = cn then [v] else []) := by
  unfold groupList
  rw [lookupA_upsert]
  by_cases h1 : cls' = cls
  · subst h1
    rw [if_pos rfl]
    simp only [Option.getD_some]
    rw [lookupA_upsert]
    by_cases h2 : cn' = cn
    · subst h2
      simp
    · rw [if_neg h2, if_neg (by tauto)]
      simp
  · rw [if_neg h1, if_neg (by tauto)]
    simp

lemma mem_groupList_pushCell (clsRow : String) (row : List Cell)
    (gs : ClassGroups) (col : NumericColumn) (cls cn : String) (q : ℚ)
    (hq : q ∈ groupList (pushCell clsRow row gs col) cls cn) :
    q ∈ groupList gs cls cn ∨
      (clsRow = cls ∧ col.name = cn ∧ row.getD col.index Cell.null = Cell.num q) := by
  unfold pushCell at hq
  cases hcell : row.getD col.index Cell.null with
  | num v =>
      rw [hcell, groupList_push] at hq
      rcases List.mem_append.mp hq with h | h
      · exact Or.inl h
      · split_ifs at h with hc
        · rcases List.mem_singleton.mp h with rfl
          exact Or.inr ⟨hc.1, hc.2, rfl⟩
        · exact absurd h (List.not_mem_nil q)
  | str s =>
      rw [hcell] at hq
      exact Or.inl hq
  | null =>
      rw [hcell] at hq
      exact Or.inl hq

lemma mem_groupList_foldl_push (clsRow : String) (row : List Cell)
    (cls cn : String) (q : ℚ) :
    ∀ (cols : List NumericColumn) (gs : ClassGroups),
      q ∈ groupList (cols.foldl (pushCell clsRow row) gs) cls cn →
      q ∈ groupList gs cls cn ∨
        (clsRow = cls ∧ ∃ col ∈ cols, col.name = cn ∧
          row.getD col.index Cell.null = Cell.num q) := by
  intro cols
  induction cols with
  | nil => intro gs hq; exact Or.inl hq
  | cons c cs ih =>
      intro gs hq
      rw [List.foldl_cons] at hq
      rcases ih (pushCell clsRow row gs c) hq with h | ⟨hcls, col, hcol, hname, hcell⟩
      · rcases mem_groupList_pushCell clsRow row gs c cls cn q h with h' | ⟨hcls, hname, hcell⟩
        · exact Or.inl h'
        · exact Or.inr ⟨hcls, c, List.mem_cons_self c cs, hname, hcell⟩
      · exact Or.inr ⟨hcls, col, List.mem_cons_of_mem c hcol, hname, hcell⟩

lemma mem_groupList_foldl_rows (cols : List NumericColumn) (classIdx : ℕ)
    (cls cn : String) (q : ℚ) :
    ∀ (rows : List (List Cell)) (gs : ClassGroups),
      q ∈ groupList (rows.foldl (addRowToGroups cols classIdx) gs) cls cn →
      q ∈ groupList gs cls cn ∨
        ∃ row ∈ rows, cellString (row.getD classIdx Cell.null) = cls ∧
          ∃ col ∈ cols, col.name = cn ∧
            row.getD col.index Cell.null = Cell.num q := by
  intro rows
  induction rows with
  | nil => intro gs hq; exact Or.inl hq
  | cons r rs ih =>
      intro gs hq
      rw [List.foldl_cons] at hq
      rcases ih (addRowToGroups cols classIdx gs r) hq with h | ⟨row, hrow, hcls, hrest⟩
      · unfold addRowToGroups at h
        rcases mem_groupList_foldl_push (cellString (r.getD classIdx Cell.null)) r
            cls cn q cols _ h with h' | ⟨hcls, hrest⟩
        · rw [groupList_upsert_id] at h'
          exact Or.inl h'
        · exact Or.inr ⟨r, List.mem_cons_self r rs, hcls, hrest⟩
      · exact Or.inr ⟨row, List.mem_cons_of_mem r hrow, hcls, hrest⟩



/-- C10: a value enters a class group's per-column list only if its cell is
already of number type, coming from a row of that class and a numeric
column of that name; and on `sheetEx` — whose score column holds the
number 10 and the numeric string "20" — the classifier's values are
[10, 20] while the score list of class "1" is only [10], a strict
subsequence. -/
theorem getGroupedByClass_numeric_only :
    (∀ (sheet : Sheet) (numericCols : List NumericColumn) (gs : ClassGroups)
        (classIdx : ℕ),
      sheet.columns.findIdx?
          (fun c => strIncludes c "班" || decide (strToLower c = "class")) =
        some classIdx →
      getGroupedByClass sheet numericCols = some gs →
      ∀ (cls cn : String) (q : ℚ), q ∈ groupList gs cls cn →
        ∃ row ∈ sheet.rows, cellString (row.getD classIdx Cell.null) = cls ∧
          ∃ col ∈ numericCols, col.name = cn ∧
            row.getD col.index Cell.null = Cell.num q) ∧
    (∃ nc ∈ getNumericColumns parseFloatEx sheetEx,
      nc.name = "score" ∧ nc.values = [10, 20]) ∧
    (∃ gs, getGroupedByClass sheetEx (getNumericColumns parseFloatEx sheetEx) = some gs ∧
      groupList gs "1" "score" = [10] ∧
      List.Sublist (groupList gs "1" "score") [10, 20] ∧
      groupList gs "1" "score" ≠ [10, 20]) := by
  have hcols : getNumericColumns parseFloatEx sheetEx =
      [⟨"班", 0, [1, 1], 1, 1, 1⟩, ⟨"score", 1, [10, 20], 15, 20, 10⟩] := by
    have hb : isExcludedColumn "班" = false := by decide
    have hs : isExcludedColumn "score" = false := by decide
    norm_num [getNumericColumns, processColumn, columnValues, cellToNumeric,
      sheetEx, parseFloatEx, hb, hs, List.enum, List.enumFrom, List.filterMap_cons,
      List.max?_cons, List.min?_cons, Option.elim, max_def, min_def, List.getD,
      (show ("20" : String) ≠ "1" by decide), (show ("1" : String) = "1" from rfl)]
  refine ⟨?_, ?_, ?_⟩
  · intro sheet numericCols gs classIdx hfind hgrp cls cn q hq
    unfold getGroupedByClass at hgrp
    rw [hfind] at hgrp
    have hgs : gs = sheet.rows.foldl (addRowToGroups numericCols classIdx) [] :=
      (Option.some.inj hgrp).symm
    rw [hgs] at hq
    rcases mem_groupList_foldl_rows numericCols classIdx cls cn q sheet.rows [] hq with
      h | ⟨row, hrow, hcls, col, hcol, hname, hcell⟩
    · exact absurd h (by simp [groupList, lookupA])
    · exact ⟨row, hrow, hcls, col, hcol, hname, hcell⟩
  · rw [hcols]
    exact ⟨⟨"score", 1, [10, 20], 15, 20, 10⟩, by simp, rfl, rfl⟩
  · rw [hcols]
    exact ⟨[("1", [("score", [10])])], by decide, by decide, by decide, by decide⟩

theorem getGroupedByClass_numeric_only_witness :
    (sheetEx.columns.findIdx?
        (fun c => strIncludes c "班" || decide (strToLower c = "class")) = some 0 ∧
      getGroupedByClass sheetEx
          [⟨"班", 0, [1, 1], 1, 1, 1⟩, ⟨"score", 1, [10, 20], 15, 20, 10⟩] =
        some [("1", [("score", [10])])] ∧
      (10 : ℚ) ∈ groupList [("1", [("score", [10])])] "1" "score") ∧
    (∃ row ∈ sheetEx.rows, cellString (row.getD 0 Cell.null) = "1" ∧
      ∃ col ∈ [(⟨"班", 0, [1, 1], 1, 1, 1⟩ : NumericColumn),
               ⟨"score", 1, [10, 20], 15, 20, 10⟩],
        col.name = "score" ∧ row.getD col.index Cell.null = Cell.num 10) :=
  ⟨⟨by decide, by decide, by decide⟩,
   getGroupedByClass_numeric_only.1 sheetEx
     [⟨"班", 0, [1, 1], 1, 1, 1⟩, ⟨"score", 1, [10, 20], 15, 20, 10⟩]
     [("1", [("score", [10])])] 0 (by decide) (by decide) "1" "score" 10 (by decide)⟩



theorem getNumericColumns_spec_witness :
    (({ columns := ["score"], rows := [[Cell.num 1]] } : Sheet).columns[0]? =
        some "score" ∧
      isExcludedColumn "score" = false) ∧
    (∃ nc ∈ getNumericColumns (fun _ => none)
        { columns := ["score"], rows := [[Cell.num 1]] }, nc.index = 0) :=
  ⟨⟨rfl, by decide⟩,
   ((getNumericColumns_spec (fun _ => none)
       { columns := ["score"], rows := [[Cell.num 1]] } 0 "score" rfl (by decide)).1).mpr
     ⟨by norm_num [columnValues, cellToNumeric, List.filterMap_cons, List.getD],
      by simp [columnValues, cellToNumeric, List.filterMap_cons, List.getD]⟩⟩


end StatsUtils
